import Mathlib

/-!
Verification of the SigLIP text→image retrieval script
(`scripts/rag/run_siglip_search.py`) against its specification.

The development shallowly embeds the script's pure logic:

* `zh_seg` — the chunker (`re.split` on the char class `[。！？!?；;]\s*`
  followed by the greedy merge loop);
* `l2norm` / `l2_normalize` — `np.linalg.norm` / `x / norm(x)` row-wise,
  modelled over exact real arithmetic;
* `npMean` — `ndarray.mean(axis=0)`, the query aggregator;
* `imgPaths` / `imgFeats` / `buildIndex` / `resolvePath` — the corpus
  build loop with its skip-on-exception behaviour, the emptiness check,
  index population (`add_items(feats, arange(len(feats)))`), and the
  result ranker's `img_paths[int(i)]` lookup.

Strings are modelled as `List Char` (Python `len` counts code points, as
does `List.length` here).
-/

/-- Model of Python's `\s` / `str.strip` whitespace test, restricted to
ASCII whitespace plus the common Unicode spaces (NBSP, ideographic space)
that can occur in the script's Chinese text. -/
def pyIsSpace (c : Char) : Bool :=
  c == ' ' || c == '\t' || c == '\n' || c == '\r' || c == '\x0b' || c == '\x0c' ||
    c == ' ' || c == '　'

/-- The character class `[。！？!?；;]` of the `re.split` pattern in `zh_seg`.
Note it contains the ideographic full stop `。` but NOT the ASCII period. -/
def isPunct (c : Char) : Bool :=
  c == '。' || c == '！' || c == '？' || c == '!' || c == '?' || c == '；' || c == ';'

/-- Helper: cons a character onto the first segment of a segment list. -/
def consHead (c : Char) : List (List Char) → List (List Char)
  | [] => [[c]]
  | s :: ss => (c :: s) :: ss

/-- Model of `re.split(r'[。！？!?；;]\s*', text)` as a left-to-right scan.
The flag records whether we are inside the `\s*` tail of a match (greedy
whitespace directly after a punctuation mark is consumed by the separator). -/
def reSplitGo : List Char → Bool → List (List Char)
  | [], _ => [[]]
  | c :: rest, skipWs =>
    if skipWs && pyIsSpace c then reSplitGo rest true
    else if isPunct c then [] :: reSplitGo rest true
    else consHead c (reSplitGo rest false)

/-- The `re.split` call of `zh_seg` (line 40 of the script). -/
def reSplit (text : List Char) : List (List Char) :=
  reSplitGo text false

/-- The sentences that survive the `if not s.strip(): continue` filter of
`zh_seg`: split results containing at least one non-whitespace character. -/
def keptSents (text : List Char) : List (List Char) :=
  (reSplit text).filter (fun s => s.any (fun c => !pyIsSpace c))

/-- The accumulation loop of `zh_seg` (lines 42-52): greedily merge
sentences into `buf` while `len(buf) + len(s) <= max_len`, appending `。`
after each sentence; flush `buf` into `chunks` when the next sentence does
not fit, and once more at the end. -/
def segLoop (maxLen : Nat) : List (List Char) → List (List Char) → List Char → List (List Char)
  | [], chunks, buf => if buf.isEmpty then chunks else chunks ++ [buf]
  | s :: rest, chunks, buf =>
    if buf.length + s.length ≤ maxLen then
      segLoop maxLen rest chunks (buf ++ s ++ ['。'])
    else
      segLoop maxLen rest (if buf.isEmpty then chunks else chunks ++ [buf]) (s ++ ['。'])

/-- The chunker `zh_seg(text, max_len)` of the script (lines 38-53). -/
def zh_seg (text : List Char) (maxLen : Nat) : List (List Char) :=
  segLoop maxLen (keptSents text) [] []

/-- The script's `CHUNK_SENT_LEN` constant (line 30). -/
def CHUNK_SENT_LEN : Nat := 60

/-- Helper for the spec-side splitter: drop the whitespace run at the head
of the first segment (the `\s*` tail of a separator match). -/
def dropHeadWs : List (List Char) → List (List Char)
  | [] => []
  | s :: ss => s.dropWhile pyIsSpace :: ss

/-- One right-fold step of the spec-side splitter: a character in `punct`
ends the current segment and absorbs the whitespace directly after it;
any other character is prepended to the current segment. -/
def specSplitStep (punct : Char → Bool) (c : Char) (acc : List (List Char)) :
    List (List Char) :=
  if punct c then [] :: dropHeadWs acc else consHead c acc

/-- Splitter written from the spec's words ("split `text` on
sentence-terminating punctuation ... into candidate sentences"),
parameterised by the set of splitting marks. -/
def specSplitFold (punct : Char → Bool) (text : List Char) : List (List Char) :=
  text.foldr (specSplitStep punct) [[]]

/-- The splitting marks as the claim lists them: `.`, `!`, `?`, `;` and
their full-width equivalents. Note this set contains the ASCII period. -/
def claimPunct (c : Char) : Bool :=
  c == '.' || c == '!' || c == '?' || c == ';' ||
    c == '。' || c == '！' || c == '？' || c == '；'

/-! ### Vectors and the normalizer

The script's float arrays are modelled over exact real arithmetic, as the
idempotence claim itself stipulates ("exactly over real/rational
arithmetic; within floating-point tolerance in the implementation"). -/

/-- A `d`-dimensional embedding vector (one row of a numpy array). -/
abbrev Vec (d : Nat) := Fin d → ℝ

/-- Model of `np.linalg.norm(x, axis=-1)` for one row: the L2 norm
`sqrt (Σ xᵢ²)`. -/
noncomputable def l2norm {d : Nat} (v : Vec d) : ℝ :=
  Real.sqrt (∑ i, v i ^ 2)

/-- The script's `l2_normalize` (lines 55-56): `x / np.linalg.norm(x)`
for one row. There is no branch on a zero norm — the quotient is formed
unconditionally. -/
noncomputable def l2_normalize {d : Nat} (v : Vec d) : Vec d :=
  fun i => v i / l2norm v

/-- Uniform rescaling of a vector by a scalar. -/
def scaleVec {d : Nat} (c : ℝ) (v : Vec d) : Vec d :=
  fun i => c * v i

/-- Elementwise sum of a batch of rows, as numpy accumulates it. -/
noncomputable def sumVecs {d : Nat} (rows : List (Vec d)) : Vec d :=
  rows.foldl (fun acc v => fun i => acc i + v i) (fun _ => 0)

/-- Model of `ndarray.mean(axis=0)` (line 71): elementwise sum of the
rows divided by the row count. This is the whole query aggregator — no
renormalization follows it in the script. -/
noncomputable def npMean {d : Nat} (rows : List (Vec d)) : Vec d :=
  fun i => sumVecs rows i / rows.length

/-- The aggregator as the spec words it: the unweighted element-wise mean
of the chunk vectors. -/
noncomputable def specAggregate {d : Nat} (rows : List (Vec d)) : Vec d :=
  fun i => (rows.map (fun v => v i)).sum / rows.length

/-! ### Corpus build pipeline and result ranker

The corpus is a sorted directory listing; each entry is a path paired with
`some feat` if `Image.open` succeeds and the model produces the feature
`feat`, or `none` if the `except` branch skips it. The feature type is a
parameter so that structural claims can be evaluated on concrete data;
the real pipeline instantiates it with `Vec d` and `l2_normalize`. -/

/-- Errors surfaced by the build (the script's bare `raise RuntimeError`
for an empty corpus, named as the spec names it). -/
inductive BuildError where
  | emptyCorpus
deriving DecidableEq, Repr

/-- Errors the spec assigns to the query side. -/
inductive QueryError where
  | emptyQuery
deriving DecidableEq, Repr

/-- The populated index: `add_items(img_feats, np.arange(len(img_feats)))`
stores the rows under the dense IDs `0 .. n-1`, i.e. ID `i` holds
`elems[i]`. -/
structure CodeIndex (α : Type) where
  elems : List α
deriving DecidableEq, Repr

/-- The `img_paths` list (line 74): the full sorted directory listing,
including entries that later fail to decode. -/
def imgPaths {α : Type} (items : List (String × Option α)) : List String :=
  items.map Prod.fst

/-- The `img_feats` accumulation loop (lines 75-84): unreadable entries are
skipped by the `except` branch, readable ones contribute their feature. -/
def imgFeats {α : Type} (items : List (String × Option α)) : List α :=
  items.filterMap Prod.snd

/-- The build (lines 86-97): the emptiness check `if not img_feats: raise`
comes first; otherwise every collected feature is normalized row-wise and
all of them are inserted under IDs `0 .. n-1`. `normFn` is the row
normalizer (`l2_normalize` in the script). -/
def buildIndex {α : Type} (normFn : α → α) (items : List (String × Option α)) :
    Except BuildError (CodeIndex α) :=
  let feats := imgFeats items
  if feats.isEmpty then Except.error BuildError.emptyCorpus
  else Except.ok ⟨feats.map normFn⟩

/-- The result ranker's path lookup (line 106): `img_paths[int(i)]`,
indexing the raw directory listing by the returned ID. -/
def resolvePath {α : Type} (items : List (String × Option α)) (i : Nat) :
    Option String :=
  (imgPaths items)[i]?

/-- Written from the claim's words: the source paths of the successfully
embedded images, in embedding order, so that the `i`-th entry is "the
source path of the `i`-th successfully embedded image". -/
def embeddedPaths {α : Type} (items : List (String × Option α)) : List String :=
  (items.filter (fun it => it.2.isSome)).map Prod.fst

/-- The query side of the script (lines 65-68): `zh_seg` output is handed
to the embedding provider unconditionally; there is no emptiness check, so
the value is always `Except.ok chunks` — never a rejection. -/
def queryChunks (text : List Char) : Except QueryError (List (List Char)) :=
  Except.ok (zh_seg text CHUNK_SENT_LEN)

/-- A chunk emitted by the merge loop either fits in `maxLen` characters
plus the one appended terminator, or is a single over-long source sentence
emitted whole (with its terminator). -/
def goodChunk (sents : List (List Char)) (maxLen : Nat) (c : List Char) : Prop :=
  c.length ≤ maxLen + 1 ∨ ∃ s ∈ sents, c = s ++ ['。'] ∧ maxLen < s.length

/-- Concrete vectors used as evaluation inputs. -/
def vecE1 : Vec 2 := ![1, 0]

def vecE2 : Vec 2 := ![0, 1]

def vec34 : Vec 2 := ![3, 4]

def zeroVec2 : Vec 2 := ![0, 0]

/-! ### Model sanity checks on concrete inputs -/

example : reSplit ['a', '。', ' ', '。', 'b'] = [['a'], [], ['b']] := by decide
example : reSplit ['a', '!', '?', 'b'] = [['a'], [], ['b']] := by decide
example : reSplit ['a', '.', 'b'] = [['a', '.', 'b']] := by decide
example : zh_seg ['a', '。', 'b'] 3 = [['a', '。', 'b', '。']] := by decide
example : zh_seg ['a', '。', 'b'] 1 = [['a', '。'], ['b', '。']] := by decide
example : zh_seg ['!'] 60 = [] := by decide
example : zh_seg [' '] 60 = [] := by decide
example : specSplitFold isPunct ['a', '。', ' ', '。', 'b'] = [['a'], [], ['b']] := by decide
example : specSplitFold claimPunct ['a', '.', 'b'] = [['a'], ['b']] := by decide

example : imgFeats [("a.jpg", (none : Option Nat)), ("b.jpg", some 7)] = [7] := by decide
example : resolvePath [("a.jpg", (none : Option Nat)), ("b.jpg", some 7)] 0 = some "a.jpg" := by decide
example : embeddedPaths [("a.jpg", (none : Option Nat)), ("b.jpg", some 7)] = ["b.jpg"] := by decide


/-! ### Lemmas: the splitter -/

/-- The splitting punctuation marks are not whitespace. -/
lemma punct_not_space (c : Char) (h : isPunct c = true) : pyIsSpace c = false := by
  unfold isPunct at h
  simp only [Bool.or_eq_true, beq_iff_eq] at h
  obtain (((((h | h) | h) | h) | h) | h) | h := h <;> subst h <;> decide

/-- A head-cons keeps the character being consed in the first segment. -/
lemma mem_consHead_self (x : Char) (L : List (List Char)) :
    ∃ t ∈ consHead x L, x ∈ t := by
  cases L with
  | nil => exact ⟨[x], by simp [consHead]⟩
  | cons s ss => exact ⟨x :: s, by simp [consHead]⟩

/-- A head-cons does not lose any segment's characters. -/
lemma mem_consHead_of_mem {x : Char} {L : List (List Char)} {s : List Char}
    (h : s ∈ L) : ∃ t ∈ consHead x L, ∀ a ∈ s, a ∈ t := by
  cases L with
  | nil => cases h
  | cons s0 ss =>
    rcases List.mem_cons.mp h with h0 | h1
    · subst h0
      exact ⟨x :: s, List.mem_cons_self _ _, fun a ha => List.mem_cons_of_mem _ ha⟩
    · exact ⟨s, List.mem_cons_of_mem _ h1, fun a ha => ha⟩

/-- Every non-punctuation, non-whitespace character of the input survives
the split into some segment. -/
lemma mem_reSplitGo (c : Char) (hp : isPunct c = false) (hs : pyIsSpace c = false) :
    ∀ (text : List Char) (b : Bool), c ∈ text → ∃ s ∈ reSplitGo text b, c ∈ s := by
  intro text
  induction text with
  | nil => intro b h; cases h
  | cons x rest ih =>
    intro b hmem
    simp only [reSplitGo]
    split_ifs with h1 h2
    · have hx : pyIsSpace x = true := by
        simp only [Bool.and_eq_true] at h1
        exact h1.2
      have hcx : c ≠ x := by
        intro h; rw [h, hx] at hs; cases hs
      rcases List.mem_cons.mp hmem with h0 | hrest
      · exact absurd h0 hcx
      · exact ih true hrest
    · have hcx : c ≠ x := by
        intro h; rw [h, h2] at hp; cases hp
      rcases List.mem_cons.mp hmem with h0 | hrest
      · exact absurd h0 hcx
      · obtain ⟨s, hsm, hcs⟩ := ih true hrest
        exact ⟨s, List.mem_cons_of_mem _ hsm, hcs⟩
    · rcases List.mem_cons.mp hmem with h0 | hrest
      · subst h0
        exact mem_consHead_self c (reSplitGo rest false)
      · obtain ⟨s, hsm, hcs⟩ := ih false hrest
        obtain ⟨t, htm, hsub⟩ := mem_consHead_of_mem hsm
        exact ⟨t, htm, hsub c hcs⟩

/-- Characters appearing in split segments come from the input and are
never splitting punctuation marks. -/
lemma reSplitGo_chars :
    ∀ (text : List Char) (b : Bool) (s : List Char), s ∈ reSplitGo text b →
      ∀ c ∈ s, c ∈ text ∧ isPunct c = false := by
  intro text
  induction text with
  | nil =>
    intro b s hs c hc
    simp only [reSplitGo, List.mem_singleton] at hs
    subst hs; cases hc
  | cons x rest ih =>
    intro b s hs c hc
    simp only [reSplitGo] at hs
    split_ifs at hs with h1 h2
    · obtain ⟨hct, hcp⟩ := ih true s hs c hc
      exact ⟨List.mem_cons_of_mem _ hct, hcp⟩
    · rcases List.mem_cons.mp hs with h0 | hrest
      · subst h0; cases hc
      · obtain ⟨hct, hcp⟩ := ih true s hrest c hc
        exact ⟨List.mem_cons_of_mem _ hct, hcp⟩
    · cases hL : reSplitGo rest false with
      | nil =>
        rw [hL] at hs
        simp only [consHead, List.mem_singleton] at hs
        subst hs
        rcases List.mem_singleton.mp hc with h0
        subst h0
        exact ⟨List.mem_cons_self _ _, by simpa using h2⟩
      | cons s0 ss =>
        rw [hL] at hs
        simp only [consHead] at hs
        rcases List.mem_cons.mp hs with h0 | hss
        · subst h0
          rcases List.mem_cons.mp hc with hcx | hcs0
          · subst hcx
            exact ⟨List.mem_cons_self _ _, by simpa using h2⟩
          · obtain ⟨hct, hcp⟩ := ih false s0 (by rw [hL]; exact List.mem_cons_self _ _) c hcs0
            exact ⟨List.mem_cons_of_mem _ hct, hcp⟩
        · obtain ⟨hct, hcp⟩ := ih false s (by rw [hL]; exact List.mem_cons_of_mem _ hss) c hc
          exact ⟨List.mem_cons_of_mem _ hct, hcp⟩

/-- The spec-side splitter always produces at least one segment. -/
lemma specSplitFold_ne_nil (punct : Char → Bool) (text : List Char) :
    specSplitFold punct text ≠ [] := by
  induction text with
  | nil => simp [specSplitFold]
  | cons x rest ih =>
    show specSplitStep punct x (specSplitFold punct rest) ≠ []
    unfold specSplitStep
    split_ifs with h
    · simp
    · cases specSplitFold punct rest <;> simp [consHead]

/-- The left-to-right flag machine of `reSplit` computes the same segments
as the right-fold formulation written from the spec's words, over the
script's actual punctuation set. The `true`-flag state differs only by the
pending whitespace absorption on the first segment. -/
lemma reSplitGo_eq_specSplitFold (text : List Char) :
    reSplitGo text false = specSplitFold isPunct text ∧
    reSplitGo text true = dropHeadWs (specSplitFold isPunct text) := by
  induction text with
  | nil => exact ⟨rfl, rfl⟩
  | cons x rest ih =>
    obtain ⟨ihf, iht⟩ := ih
    have hstep : specSplitFold isPunct (x :: rest) =
        specSplitStep isPunct x (specSplitFold isPunct rest) := rfl
    by_cases hp : isPunct x = true
    · have hxs : pyIsSpace x = false := punct_not_space x hp
      constructor
      · simp only [reSplitGo, Bool.false_and]
        rw [if_neg (by simp), if_pos hp, hstep]
        unfold specSplitStep
        rw [if_pos hp, iht]
      · simp only [reSplitGo, Bool.true_and]
        rw [if_neg (by simp [hxs]), if_pos hp, hstep]
        unfold specSplitStep
        rw [if_pos hp, iht]
        rfl
    · by_cases hs : pyIsSpace x = true
      · constructor
        · simp only [reSplitGo, Bool.false_and]
          rw [if_neg (by simp), if_neg hp, hstep]
          unfold specSplitStep
          rw [if_neg hp, ihf]
        · simp only [reSplitGo, Bool.true_and]
          rw [if_pos hs, iht, hstep]
          unfold specSplitStep
          rw [if_neg hp]
          cases hA : specSplitFold isPunct rest with
          | nil => exact absurd hA (specSplitFold_ne_nil isPunct rest)
          | cons s0 ss =>
            show dropHeadWs (s0 :: ss) = dropHeadWs ((x :: s0) :: ss)
            simp only [dropHeadWs]
            rw [List.dropWhile_cons, if_pos hs]
      · constructor
        · simp only [reSplitGo, Bool.false_and]
          rw [if_neg (by simp), if_neg hp, hstep]
          unfold specSplitStep
          rw [if_neg hp, ihf]
        · simp only [reSplitGo, Bool.true_and]
          rw [if_neg (by simp [hs]), if_neg hp, ihf, hstep]
          unfold specSplitStep
          rw [if_neg hp]
          cases hA : specSplitFold isPunct rest with
          | nil => exact absurd hA (specSplitFold_ne_nil isPunct rest)
          | cons s0 ss =>
            show (x :: s0) :: ss = dropHeadWs ((x :: s0) :: ss)
            simp only [dropHeadWs]
            rw [List.dropWhile_cons, if_neg (by simp [hs])]

/-! ### Lemmas: the merge loop -/

/-- Once the buffer is non-empty the merge loop cannot return an empty
chunk list: the buffer is flushed at the latest when the input runs out. -/
lemma segLoop_ne_nil_of_buf (maxLen : Nat) :
    ∀ (sents chunks : List (List Char)) (buf : List Char),
      buf ≠ [] → segLoop maxLen sents chunks buf ≠ [] := by
  intro sents
  induction sents with
  | nil =>
    intro chunks buf hb
    simp only [segLoop]
    rw [if_neg (by simpa [List.isEmpty_iff] using hb)]
    simp
  | cons s rest ih =>
    intro chunks buf hb
    simp only [segLoop]
    split_ifs with h1 h2
    · exact ih _ _ (by simp)
    · exact ih _ _ (by simp)
    · exact ih _ _ (by simp)

/-- Concatenating the merge loop's output reproduces the pending state and
every remaining sentence, each with its appended terminator, in order. -/
lemma segLoop_flatten (maxLen : Nat) :
    ∀ (sents chunks : List (List Char)) (buf : List Char),
      (segLoop maxLen sents chunks buf).flatten =
        chunks.flatten ++ buf ++ (sents.map (fun s => s ++ ['。'])).flatten := by
  intro sents
  induction sents with
  | nil =>
    intro chunks buf
    simp only [segLoop]
    split_ifs with h
    · simp [List.isEmpty_iff.mp h]
    · simp
  | cons s rest ih =>
    intro chunks buf
    simp only [segLoop]
    split_ifs with h1 h2
    · rw [ih]; simp
    · rw [ih]; simp [List.isEmpty_iff.mp h2]
    · rw [ih]; simp

/-- Invariant proof: every chunk the merge loop emits is `goodChunk`. -/
lemma segLoop_good (maxLen : Nat) (sents : List (List Char)) :
    ∀ (rest chunks : List (List Char)) (buf : List Char),
      (∀ x ∈ rest, x ∈ sents) →
      (∀ c ∈ chunks, goodChunk sents maxLen c) →
      (buf = [] ∨ goodChunk sents maxLen buf) →
      ∀ c ∈ segLoop maxLen rest chunks buf, goodChunk sents maxLen c := by
  intro rest
  induction rest with
  | nil =>
    intro chunks buf hsub hch hbuf c hc
    simp only [segLoop] at hc
    split_ifs at hc with h
    · exact hch c hc
    · rcases List.mem_append.mp hc with h1 | h1
      · exact hch c h1
      · have hcb : c = buf := by simpa using h1
        subst hcb
        rcases hbuf with h2 | h2
        · rw [h2] at h; exact absurd rfl h
        · exact h2
  | cons s rest ih =>
    intro chunks buf hsub hch hbuf c hc
    simp only [segLoop] at hc
    split_ifs at hc with h1 h2
    · refine ih _ _ (fun x hx => hsub x (List.mem_cons_of_mem _ hx)) hch
        (Or.inr (Or.inl ?_)) c hc
      simp only [List.length_append, List.length_singleton]
      omega
    · refine ih _ _ (fun x hx => hsub x (List.mem_cons_of_mem _ hx)) hch
        (Or.inr ?_) c hc
      by_cases hs : s.length ≤ maxLen
      · exact Or.inl (by simp only [List.length_append, List.length_singleton]; omega)
      · exact Or.inr ⟨s, hsub s (List.mem_cons_self _ _), rfl, by omega⟩
    · refine ih _ _ (fun x hx => hsub x (List.mem_cons_of_mem _ hx)) ?_
        (Or.inr ?_) c hc
      · intro c' hc'
        rcases List.mem_append.mp hc' with h3 | h3
        · exact hch c' h3
        · have hcb : c' = buf := by simpa using h3
          subst hcb
          rcases hbuf with h4 | h4
          · rw [h4] at h2; exact absurd rfl h2
          · exact h4
      · by_cases hs : s.length ≤ maxLen
        · exact Or.inl (by simp only [List.length_append, List.length_singleton]; omega)
        · exact Or.inr ⟨s, hsub s (List.mem_cons_self _ _), rfl, by omega⟩

/-- A text whose characters are all whitespace or splitting punctuation
keeps no sentence after the blank filter. -/
lemma keptSents_eq_nil (text : List Char)
    (h : ∀ c ∈ text, pyIsSpace c = true ∨ isPunct c = true) :
    keptSents text = [] := by
  unfold keptSents
  rw [List.filter_eq_nil_iff]
  intro s hs hany
  obtain ⟨c, hc, hcb⟩ := List.any_eq_true.mp hany
  have hcs : pyIsSpace c = false := by simpa using hcb
  obtain ⟨hct, hcp⟩ := reSplitGo_chars text false s hs c hc
  rcases h c hct with h1 | h1
  · rw [h1] at hcs; cases hcs
  · rw [h1] at hcp; cases hcp

/-! ### Lemmas: normalizer and aggregator arithmetic -/

/-- A sum of squares is nonnegative. -/
lemma sumSq_nonneg {d : Nat} (v : Vec d) : 0 ≤ ∑ i, v i ^ 2 :=
  Finset.sum_nonneg fun i _ => sq_nonneg (v i)

/-- Squaring the L2 norm recovers the sum of squares. -/
lemma sq_l2norm {d : Nat} (v : Vec d) : l2norm v ^ 2 = ∑ i, v i ^ 2 :=
  Real.sq_sqrt (sumSq_nonneg v)

/-- A vector of nonzero norm normalizes to a unit vector. -/
lemma l2norm_l2_normalize {d : Nat} (v : Vec d) (h : l2norm v ≠ 0) :
    l2norm (l2_normalize v) = 1 := by
  show Real.sqrt (∑ i, (v i / l2norm v) ^ 2) = 1
  have hS : (∑ i, (v i / l2norm v) ^ 2) = (∑ i, v i ^ 2) / l2norm v ^ 2 := by
    rw [Finset.sum_div]
    exact Finset.sum_congr rfl fun i _ => div_pow (v i) (l2norm v) 2
  rw [hS, ← sq_l2norm v, div_self (pow_ne_zero 2 h), Real.sqrt_one]

/-- Scaling by a nonnegative factor scales the L2 norm by that factor. -/
lemma l2norm_scaleVec {d : Nat} (c : ℝ) (v : Vec d) (hc : 0 ≤ c) :
    l2norm (scaleVec c v) = c * l2norm v := by
  show Real.sqrt (∑ i, (c * v i) ^ 2) = c * Real.sqrt (∑ i, v i ^ 2)
  have h1 : (∑ i, (c * v i) ^ 2) = c ^ 2 * ∑ i, v i ^ 2 := by
    rw [Finset.mul_sum]
    exact Finset.sum_congr rfl fun i _ => by ring
  rw [h1, Real.sqrt_mul (sq_nonneg c), Real.sqrt_sq hc]

/-- Unfolding the elementwise fold: coordinate `i` of the accumulated sum. -/
lemma sumVecs_go {d : Nat} :
    ∀ (rows : List (Vec d)) (acc : Vec d) (i : Fin d),
      (rows.foldl (fun acc v => fun j => acc j + v j) acc) i =
        acc i + (rows.map (fun v => v i)).sum := by
  intro rows
  induction rows with
  | nil => intro acc i; simp
  | cons v rest ih =>
    intro acc i
    simp only [List.foldl_cons, List.map_cons, List.sum_cons]
    rw [ih]
    ring

/-- Coordinate `i` of the elementwise sum of rows. -/
lemma sumVecs_apply {d : Nat} (rows : List (Vec d)) (i : Fin d) :
    sumVecs rows i = (rows.map (fun v => v i)).sum := by
  unfold sumVecs
  rw [sumVecs_go]
  simp

lemma l2norm_vec34 : l2norm vec34 = 5 := by
  unfold l2norm vec34
  rw [Fin.sum_univ_two]
  simp only [Matrix.cons_val_zero, Matrix.cons_val_one, Matrix.head_cons]
  rw [show (3:ℝ) ^ 2 + 4 ^ 2 = 5 ^ 2 by norm_num, Real.sqrt_sq (by norm_num : (0:ℝ) ≤ 5)]

lemma l2norm_vecE1 : l2norm vecE1 = 1 := by
  unfold l2norm vecE1
  rw [Fin.sum_univ_two]
  simp only [Matrix.cons_val_zero, Matrix.cons_val_one, Matrix.head_cons]
  rw [show (1:ℝ) ^ 2 + 0 ^ 2 = 1 by norm_num, Real.sqrt_one]

lemma l2norm_vecE2 : l2norm vecE2 = 1 := by
  unfold l2norm vecE2
  rw [Fin.sum_univ_two]
  simp only [Matrix.cons_val_zero, Matrix.cons_val_one, Matrix.head_cons]
  rw [show (0:ℝ) ^ 2 + 1 ^ 2 = 1 by norm_num, Real.sqrt_one]

lemma l2norm_zeroVec2 : l2norm zeroVec2 = 0 := by
  unfold l2norm zeroVec2
  rw [Fin.sum_univ_two]
  simp only [Matrix.cons_val_zero, Matrix.cons_val_one, Matrix.head_cons]
  rw [show (0:ℝ) ^ 2 + 0 ^ 2 = 0 by norm_num, Real.sqrt_zero]

lemma npMean_pair : npMean [vecE1, vecE2] = fun i => (vecE1 i + vecE2 i) / 2 := by
  funext i
  unfold npMean
  rw [sumVecs_apply]
  simp

lemma l2norm_npMean_pair : l2norm (npMean [vecE1, vecE2]) < 1 := by
  rw [npMean_pair]
  show Real.sqrt (∑ i, ((vecE1 i + vecE2 i) / 2) ^ 2) < 1
  rw [Fin.sum_univ_two]
  unfold vecE1 vecE2
  simp only [Matrix.cons_val_zero, Matrix.cons_val_one, Matrix.head_cons]
  rw [show (((1:ℝ) + 0) / 2) ^ 2 + ((0 + 1) / 2) ^ 2 = 1 / 2 by norm_num]
  have h2 : Real.sqrt (1 / 2) < Real.sqrt 1 :=
    Real.sqrt_lt_sqrt (by norm_num) (by norm_num)
  rw [Real.sqrt_one] at h2
  exact h2

/-! ### Claim theorems -/

/-- C1 (evaluation at the failing input): with the sorted listing
`[a.jpg (unreadable), b.jpg (readable)]` the only embedded vector is
stored under ID 0 and its source is `b.jpg`, yet the Result Ranker
resolves ID 0 through the raw directory listing to `a.jpg`. The claim —
that the lookup yields the path of the `i`-th successfully embedded
image — fails on the code whenever a skipped image precedes an embedded
one. -/
theorem C1_path_misalignment :
    imgFeats [("a.jpg", (none : Option Nat)), ("b.jpg", some 7)] = [7] ∧
    resolvePath [("a.jpg", (none : Option Nat)), ("b.jpg", some 7)] 0 = some "a.jpg" ∧
    (embeddedPaths [("a.jpg", (none : Option Nat)), ("b.jpg", some 7)])[0]? = some "b.jpg" ∧
    resolvePath [("a.jpg", (none : Option Nat)), ("b.jpg", some 7)] 0 ≠
      (embeddedPaths [("a.jpg", (none : Option Nat)), ("b.jpg", some 7)])[0]? := by
  decide

/-- C2 (counterexample): `l2_normalize` has no zero-norm guard. A corpus
item whose embedding is the zero vector (L2 norm 0) is NOT skipped: the
build succeeds and inserts the unconditionally-formed quotient for the
zero vector as index entry 0. -/
theorem C2_zero_vector_not_skipped :
    l2norm zeroVec2 = 0 ∧
    buildIndex l2_normalize [("z.jpg", some zeroVec2), ("e.jpg", some vecE1)] =
      Except.ok ⟨[l2_normalize zeroVec2, l2_normalize vecE1]⟩ :=
  ⟨l2norm_zeroVec2, rfl⟩

/-- C2 (amended): normalization performs no guard at all — every
successfully decoded feature, zero-norm or not, is normalized row-wise
and inserted; nothing is skipped on the corpus side. -/
theorem C2_no_guard {α : Type} (normFn : α → α) (items : List (String × Option α))
    (h : imgFeats items ≠ []) :
    buildIndex normFn items = Except.ok ⟨(imgFeats items).map normFn⟩ := by
  show (if (imgFeats items).isEmpty = true then Except.error BuildError.emptyCorpus
        else Except.ok (CodeIndex.mk ((imgFeats items).map normFn))) =
      Except.ok (CodeIndex.mk ((imgFeats items).map normFn))
  rw [if_neg (by simpa [List.isEmpty_iff] using h)]

/-- C2 witness: a one-item corpus is mapped and inserted whole. -/
theorem C2_no_guard_witness :
    buildIndex Nat.succ [("a.jpg", some 0)] = Except.ok ⟨[1]⟩ :=
  C2_no_guard Nat.succ [("a.jpg", some 0)] (by decide)

/-- C3 (counterexample): the whitespace-only query `" "` segments to zero
chunks, yet the code does not reject it — the empty chunk list is handed
to the embedding provider (`Except.ok []`), not an `EmptyQuery` error. -/
theorem C3_empty_query_not_rejected :
    zh_seg [' '] CHUNK_SENT_LEN = [] ∧
      queryChunks [' '] ≠ Except.error QueryError.emptyQuery :=
  ⟨by decide, by simp [queryChunks]⟩

/-- C3 (amended): a query text consisting solely of whitespace and
splitting punctuation yields zero chunks, and the code passes the empty
chunk list on to the embedding provider unconditionally — there is no
rejection path. -/
theorem C3_pass_through (text : List Char)
    (h : ∀ c ∈ text, pyIsSpace c = true ∨ isPunct c = true) :
    queryChunks text = Except.ok [] := by
  unfold queryChunks zh_seg
  rw [keptSents_eq_nil text h]
  rfl

/-- C3 witness at the whitespace-only query. -/
theorem C3_pass_through_witness : queryChunks [' '] = Except.ok [] :=
  C3_pass_through [' '] (by decide)

/-- C4 (counterexample): the input `"!"` contains a non-whitespace
character, yet the chunker's output is empty — every character is
splitting punctuation, so no sentence survives. -/
theorem C4_punct_only_empty :
    (∃ c ∈ ['!'], pyIsSpace c = false) ∧ zh_seg ['!'] 60 = [] := by
  decide

/-- C4 (amended): if the input contains at least one character that is
neither whitespace nor splitting punctuation, the chunker's output is
non-empty; and the chunks concatenate to exactly the kept sentences in
source order, each with its appended terminator — chunk order matches
source order. -/
theorem C4_nonempty_ordered (text : List Char) (maxLen : Nat)
    (h : ∃ c ∈ text, isPunct c = false ∧ pyIsSpace c = false) :
    zh_seg text maxLen ≠ [] ∧
      (zh_seg text maxLen).flatten =
        ((keptSents text).map (fun s => s ++ ['。'])).flatten := by
  obtain ⟨c, hct, hcp, hcs⟩ := h
  obtain ⟨s, hsmem, hcs'⟩ := mem_reSplitGo c hcp hcs text false hct
  have hkept : s ∈ keptSents text := by
    refine List.mem_filter.mpr ⟨hsmem, ?_⟩
    exact List.any_eq_true.mpr ⟨c, hcs', by simp [hcs]⟩
  constructor
  · unfold zh_seg
    cases hk : keptSents text with
    | nil => rw [hk] at hkept; cases hkept
    | cons s0 rest =>
      simp only [segLoop]
      split_ifs with h1 <;> exact segLoop_ne_nil_of_buf maxLen rest _ _ (by simp)
  · unfold zh_seg
    rw [segLoop_flatten]
    simp

/-- C4 witness at a one-letter input. -/
theorem C4_nonempty_ordered_witness :
    zh_seg ['a'] 60 ≠ [] ∧
      (zh_seg ['a'] 60).flatten =
        ((keptSents ['a']).map (fun s => s ++ ['。'])).flatten :=
  C4_nonempty_ordered ['a'] 60 (by decide)

/-- C5 (counterexample): with `max_len = 3` the input `"a。b"` produces
the single chunk `"a。b。"` of length 4 — it exceeds `max_len`, yet it
merges two source sentences, neither of which is longer than `max_len`,
so the claim's only allowed exception does not apply. The appended
terminators are not counted by the length check. -/
theorem C5_length_exceeded :
    ∃ c ∈ zh_seg ['a', '。', 'b'] 3,
      ¬(c.length ≤ 3 ∨
        ∃ s ∈ keptSents ['a', '。', 'b'], c = s ++ ['。'] ∧ 3 < s.length) := by
  decide

/-- C5 (amended): every chunk is at most `max_len + 1` characters long
(the `+ 1` is the terminator appended after the length check), except a
chunk holding a single source sentence itself longer than `max_len`,
which is emitted whole with its terminator. -/
theorem C5_chunk_length (text : List Char) (maxLen : Nat) (c : List Char)
    (hc : c ∈ zh_seg text maxLen) :
    c.length ≤ maxLen + 1 ∨
      ∃ s ∈ keptSents text, c = s ++ ['。'] ∧ maxLen < s.length := by
  exact segLoop_good maxLen (keptSents text) (keptSents text) [] []
    (fun x hx => hx) (by intro c hc; cases hc) (Or.inl rfl) c hc

/-- C5 witness at a one-letter input. -/
theorem C5_chunk_length_witness :
    ['a', '。'] ∈ zh_seg ['a'] 60 ∧
      (['a', '。'].length ≤ 61 ∨
        ∃ s ∈ keptSents ['a'], ['a', '。'] = s ++ ['。'] ∧ 60 < s.length) :=
  ⟨by decide, C5_chunk_length ['a'] 60 ['a', '。'] (by decide)⟩

/-- C6 (counterexample): the ASCII period is not a splitting mark. On
`"a.b"` the code keeps the single sentence `"a.b"`, whereas splitting on
the claim's mark set (which includes `.`) would keep `"a"` and `"b"`. -/
theorem C6_ascii_period_not_split :
    keptSents ['a', '.', 'b'] = [['a', '.', 'b']] ∧
      (specSplitFold claimPunct ['a', '.', 'b']).filter
          (fun s => s.any (fun c => !pyIsSpace c)) = [['a'], ['b']] ∧
      keptSents ['a', '.', 'b'] ≠
        (specSplitFold claimPunct ['a', '.', 'b']).filter
          (fun s => s.any (fun c => !pyIsSpace c)) := by
  decide

/-- C6 (amended): the chunker's candidate sentences are exactly the
spec-style split on the marks `。 ！ ？ ! ? ； ;` (full-width period,
full-width and ASCII exclamation/question/semicolon — the ASCII period is
not among them), with empty and whitespace-only results discarded. -/
theorem C6_split_set (text : List Char) :
    keptSents text =
      (specSplitFold isPunct text).filter (fun s => s.any (fun c => !pyIsSpace c)) := by
  unfold keptSents reSplit
  rw [(reSplitGo_eq_specSplitFold text).1]

/-- C7: the query aggregator computes exactly the unweighted element-wise
mean of the chunk vectors, and performs no renormalization afterwards:
the mean of the two unit vectors `e1`, `e2` has L2 norm `sqrt (1/2) < 1`. -/
theorem C7_aggregator_mean :
    (∀ (d : Nat) (rows : List (Vec d)), npMean rows = specAggregate rows) ∧
      l2norm vecE1 = 1 ∧ l2norm vecE2 = 1 ∧ l2norm (npMean [vecE1, vecE2]) < 1 := by
  refine ⟨?_, l2norm_vecE1, l2norm_vecE2, l2norm_npMean_pair⟩
  intro d rows
  funext i
  unfold npMean specAggregate
  rw [sumVecs_apply]

/-- C8: when the corpus yields zero valid image vectors the build stops
with `EmptyCorpus` — the emptiness check precedes index construction, and
the error result carries no index. -/
theorem C8_empty_corpus {α : Type} (normFn : α → α) (items : List (String × Option α))
    (h : imgFeats items = []) :
    buildIndex normFn items = Except.error BuildError.emptyCorpus := by
  show (if (imgFeats items).isEmpty = true then Except.error BuildError.emptyCorpus
        else Except.ok (CodeIndex.mk ((imgFeats items).map normFn))) =
      Except.error BuildError.emptyCorpus
  rw [if_pos (by simp [h])]

/-- C8 witness: a listing whose only image is unreadable. -/
theorem C8_empty_corpus_witness :
    buildIndex Nat.succ [("bad.jpg", (none : Option Nat))] =
      Except.error BuildError.emptyCorpus :=
  C8_empty_corpus Nat.succ [("bad.jpg", none)] (by decide)

/-- C9: normalization is idempotent over exact real arithmetic — for any
vector of nonzero L2 norm, normalizing twice equals normalizing once. -/
theorem C9_normalize_idempotent {d : Nat} (v : Vec d) (h : l2norm v ≠ 0) :
    l2_normalize (l2_normalize v) = l2_normalize v := by
  funext i
  show l2_normalize v i / l2norm (l2_normalize v) = l2_normalize v i
  rw [l2norm_l2_normalize v h, div_one]

/-- C9 witness at the vector `(3, 4)` of norm 5. -/
theorem C9_normalize_idempotent_witness :
    l2_normalize (l2_normalize vec34) = l2_normalize vec34 :=
  C9_normalize_idempotent vec34 (by rw [l2norm_vec34]; norm_num)

/-- C10: normalization is scale-invariant — rescaling a nonzero vector by
any positive scalar leaves its normalization unchanged. -/
theorem C10_normalize_scale_invariant {d : Nat} (c : ℝ) (v : Vec d)
    (hc : 0 < c) (h : l2norm v ≠ 0) :
    l2_normalize (scaleVec c v) = l2_normalize v := by
  funext i
  show c * v i / l2norm (scaleVec c v) = v i / l2norm v
  rw [l2norm_scaleVec c v hc.le]
  exact mul_div_mul_left (v i) (l2norm v) (ne_of_gt hc)

/-- C10 witness at scale 2 of the vector `(3, 4)`. -/
theorem C10_normalize_scale_invariant_witness :
    l2_normalize (scaleVec 2 vec34) = l2_normalize vec34 :=
  C10_normalize_scale_invariant 2 vec34 (by norm_num) (by rw [l2norm_vec34]; norm_num)
